import Mathlib

/-!
# Verification of the 00981A holdings extraction and differencing engine

Shallow embedding of `src/download_00981a.py`: the date normalizer
(`roc_to_ad_yyyymmdd`), header locator (`find_header_row`), column resolver
(`normalize_colname` / `pick_column`), quantity parser (`to_int_safe`), record
normalizer (the cleaning tail of `parse_holdings_from_xlsx`), snapshot differ
(`compute_diff`) and report summarizer (`top_rows` in
`write_summary_markdown`).

Strings are modelled as Lean `String` / `List Char`; cell values as
`Option String` (`none` models Python `None` / pandas `NaN`, which
stringifies to `"nan"`).  Character-class tests (`\d`, `\s`, `str.isdigit`,
`str.lower`) are modelled on the ASCII range, which covers the identifier
and quantity alphabets the script later enforces
(`^[0-9A-Za-z.\x2d]+$`); the Unicode extensions of those Python classes are
outside the data handled here.  Python `int(float(s))` is embedded with
`float()`'s full string grammar — sign, `inf`/`infinity`/`nan` spellings,
exponents, underscores between digits — with exact decimal value
semantics, the IEEE-double overflow threshold, and the uncaught
`OverflowError` it can raise; see the quantity-parser section for the one
declared approximation (binary rounding as exact decimal evaluation).
-/

namespace ETF00981A

/-- Python `str.strip` / `\s` whitespace on the ASCII range. -/
def isPySpace (c : Char) : Bool :=
  c = ' ' || c = '\t' || c = '\n' || c = '\x0d' || c = '\x0b' || c = '\x0c'

/-- ASCII decimal digit, the `\d` class restricted to ASCII. -/
def isAsciiDigit (c : Char) : Bool :=
  '0' ≤ c && c ≤ '9'

/-- Python `str.strip()` on a character list. -/
def pyStrip (l : List Char) : List Char :=
  ((l.dropWhile isPySpace).reverse.dropWhile isPySpace).reverse

/-- Python `str.lower()` (ASCII case folding, identity elsewhere). -/
def pyLower (l : List Char) : List Char :=
  l.map Char.toLower

/-- `needle in haystack` for Python strings: contiguous substring test. -/
def containsSub (needle : List Char) : List Char → Bool
  | [] => needle.isEmpty
  | c :: rest => needle.isPrefixOf (c :: rest) || containsSub needle rest

/-- Decimal value of a digit list (the `int(...)` of a matched group). -/
def digitsVal (l : List Char) : Nat :=
  l.foldl (fun acc c => acc * 10 + (c.toNat - '0'.toNat)) 0

/-! ## Date Normalizer: `roc_to_ad_yyyymmdd` -/

/-- The normalization line of `roc_to_ad_yyyymmdd`:
`replace("年","/").replace("月","/").replace("日","").replace("-","/")`. -/
def rocNormalize (l : List Char) : List Char :=
  l.filterMap fun c =>
    if c = '日' then none
    else if c = '年' || c = '月' || c = '-' then some '/'
    else some c

/-- Match of `(\d{2,3})\s*/\s*(\d{1,2})\s*/\s*(\d{1,2})` anchored at the head
of the list: maximal digit runs with the backtracking of the Python pattern
resolved (a run longer than the counted repetition leaves a digit before the
required `/`, so such a position fails outright; the trailing day group takes
at most two digits greedily). -/
def tryTriple (l : List Char) : Option (Nat × Nat × Nat) :=
  let y := l.takeWhile isAsciiDigit
  let r1 := l.dropWhile isAsciiDigit
  if y.length < 2 || 3 < y.length then none
  else
    match (r1.dropWhile isPySpace) with
    | '/' :: r2 =>
      let r3 := r2.dropWhile isPySpace
      let mo := r3.takeWhile isAsciiDigit
      let r4 := r3.dropWhile isAsciiDigit
      if mo.length < 1 || 2 < mo.length then none
      else
        match (r4.dropWhile isPySpace) with
        | '/' :: r5 =>
          let r6 := r5.dropWhile isPySpace
          let da := (r6.takeWhile isAsciiDigit).take 2
          if da.isEmpty then none
          else some (digitsVal y, digitsVal mo, digitsVal da)
        | _ => none
    | _ => none

/-- `re.search`: leftmost position at which the triple pattern matches. -/
def searchTriple : List Char → Option (Nat × Nat × Nat)
  | [] => none
  | c :: rest =>
    match tryTriple (c :: rest) with
    | some t => some t
    | none => searchTriple rest

/-- Gregorian leap-year test, as used by `datetime.date`. -/
def isLeap (y : Nat) : Bool :=
  y % 4 = 0 && (y % 100 ≠ 0 || y % 400 = 0)

/-- Days in a month of the proleptic Gregorian calendar. -/
def daysInMonth (y m : Nat) : Nat :=
  if m = 2 then (if isLeap y then 29 else 28)
  else if m = 4 || m = 6 || m = 9 || m = 11 then 30
  else 31

/-- Validity condition of `datetime.date(year, month, day)`. -/
def validDate (y m d : Nat) : Bool :=
  1 ≤ y && y ≤ 9999 && 1 ≤ m && m ≤ 12 && 1 ≤ d && d ≤ daysInMonth y m

/-- Zero-pad a numeral to at least `w` digits (`strftime` field padding). -/
def padZero (w : Nat) (n : Nat) : String :=
  let s := toString n
  String.mk (List.replicate (w - s.length) '0') ++ s

/-- `roc_to_ad_yyyymmdd`: strip, normalize era markers and separators,
extract the first `yy(y)/m(m)/d(d)` triple, add 1911 to the era year,
validate as a calendar date, and render as `YYYYMMDD`. -/
def roc_to_ad_yyyymmdd (s : String) : Option String :=
  let t := pyStrip s.data
  if t.isEmpty then none
  else
    match searchTriple (rocNormalize t) with
    | none => none
    | some (ry, m, d) =>
      let y := ry + 1911
      if validDate y m d then
        some (padZero 4 y ++ padZero 2 m ++ padZero 2 d)
      else none

/-! ## Header Locator: `find_header_row`

A raw cell is `Option String`: `none` is pandas `NaN`, which `astype(str)`
renders as `"nan"`. -/

/-- `astype(str)` on one cell. -/
def cellStr (c : Option String) : String :=
  c.getD "nan"

/-- Keyword family `must_have_any` (identifier keywords). -/
def mustHaveAny : List String := ["代號", "股票代號", "標的代號", "證券代號"]

/-- Keyword family `should_have_any` (label keywords). -/
def shouldHaveAny : List String := ["名稱", "標的名稱", "股票名稱", "股名"]

/-- Keyword family `shares_any` (quantity keywords). -/
def sharesAny : List String := ["股數", "持股股數", "數量", "持有股數"]

/-- `" ".join([x.strip() for x in row if x and x != "nan"]).strip()`. -/
def rowJoin (row : List (Option String)) : List Char :=
  let kept := (row.map cellStr).filter fun s => s ≠ "" && s ≠ "nan"
  pyStrip (List.intercalate [' '] (kept.map fun s => pyStrip s.data))

/-- `any(k in row_join for k in ks)`. -/
def hasAnyKeyword (j : List Char) (ks : List String) : Bool :=
  ks.any fun k => containsSub k.data j

/-- The loop body of `find_header_row`: `continue` on an empty or `"nan"`
joined row, then return on `has_code and has_shares` (the later
`has_code and has_name and has_shares` branch is subsumed). -/
def headerRowHit (row : List (Option String)) : Bool :=
  let j := rowJoin row
  if j.isEmpty || pyLower j = ['n', 'a', 'n'] then false
  else hasAnyKeyword j mustHaveAny && hasAnyKeyword j sharesAny

/-- The scan loop `for i in range(max_scan)`, by remaining fuel. -/
def headerScan (t : List (List (Option String))) : Nat → Nat → Option Nat
  | _, 0 => none
  | i, fuel + 1 =>
    if headerRowHit (t.getD i []) then some i
    else headerScan t (i + 1) fuel

/-- `find_header_row`: index of the first qualifying row among the first
`min(40, len(df_raw))` rows, else `None`. -/
def find_header_row (t : List (List (Option String))) : Option Nat :=
  headerScan t 0 (min 40 t.length)

/-! ## Column Resolver: `normalize_colname`, `pick_column` -/

/-- `re.sub(r"\s+", "", str(s)).strip()`: drop all whitespace. -/
def normalize_colname (s : String) : String :=
  String.mk (s.data.filter fun c => ¬ isPySpace c)

/-- `pick_column`: first candidate, then first column whose normalized name
contains that candidate as a substring. -/
def pick_column (cols : List String) (candidates : List String) : Option String :=
  candidates.findSome? fun cand =>
    cols.find? fun col => containsSub cand.data (normalize_colname col).data

/-! ## Quantity parser: `to_int_safe`

`int(float(s))` is embedded by parsing `s` with Python `float()`'s full
string grammar — optional sign; `inf`/`infinity`/`nan` spellings
(case-insensitive); or a decimal numeric with single underscores between
digits and an optional exponent — and evaluating the numeric forms exactly
as a decimal `±D·10^k`.  `int()` then truncates toward zero; a `nan` value
raises `ValueError` (caught by the source's `except ValueError`, yielding
0); an infinite value — an `inf` spelling, or a numeric whose exact
magnitude reaches the IEEE-double overflow threshold `2^1024 − 2^970` —
raises `OverflowError`, which the source does **not** catch.  The one
declared approximation: the binary rounding step of `float()` is modelled
as exact decimal evaluation, so `int(float(s))` and the model can differ by
one unit only within half an ulp of an integer boundary (inputs carrying
16+ significant digits); likewise `float()`'s translation of non-ASCII
Unicode decimal digits is outside the ASCII alphabet declared above. -/

/-- The exception `int(float(s))` can raise past the source's
`except ValueError`. -/
inductive PyExc where
  | overflowError
deriving DecidableEq, Repr

/-- Value classes of Python `float()` on a string: an exact signed decimal
`±D·10^k`, an infinity, or a NaN. -/
inductive PyFloatVal where
  | finite (neg : Bool) (D : Nat) (k : Int)
  | inf (neg : Bool)
  | nan
deriving DecidableEq, Repr

/-- One Python `digitpart` whose first digit `c` is already consumed:
collects further digits, allowing a single `_` only between digits, and
returns the digits (underscores removed) with the unconsumed remainder. -/
def digitsUnderAux : Char → List Char → List Char × List Char
  | c, '_' :: d :: rest =>
    if isAsciiDigit d then
      let p := digitsUnderAux d rest
      (c :: p.1, p.2)
    else ([c], '_' :: d :: rest)
  | c, d :: rest =>
    if isAsciiDigit d then
      let p := digitsUnderAux d rest
      (c :: p.1, p.2)
    else ([c], d :: rest)
  | c, [] => ([c], [])

/-- A Python `digitpart` (at least one digit, underscores between digits). -/
def digitPart : List Char → Option (List Char × List Char)
  | c :: rest => if isAsciiDigit c then some (digitsUnderAux c rest) else none
  | [] => none

/-- Exponent digits after `e`/`E` and an optional sign; the whole input must
be consumed. -/
def expDigits (eneg : Bool) (ip fp : List Char) (r : List Char) :
    Option (Nat × Int) :=
  match digitPart r with
  | some (ed, rest) =>
    if rest.isEmpty then
      some (digitsVal (ip ++ fp),
        (if eneg then -(digitsVal ed : Int) else (digitsVal ed : Int)) -
          (fp.length : Int))
    else none
  | none => none

/-- The optional exponent of a numeric literal; without one the value is
`digits(ip ++ fp) · 10^(−|fp|)`. -/
def parseExpTail (ip fp : List Char) : List Char → Option (Nat × Int)
  | [] => some (digitsVal (ip ++ fp), -(fp.length : Int))
  | c :: r1 =>
    if c = 'e' || c = 'E' then
      match r1 with
      | '-' :: r2 => expDigits true ip fp r2
      | '+' :: r2 => expDigits false ip fp r2
      | r2 => expDigits false ip fp r2
    else none

/-- A Python numeric float literal without sign: `digitpart`,
`digitpart '.' digitpart?`, `'.' digitpart`, each with an optional
exponent; yields the exact decimal `(D, k)` with value `D·10^k`. -/
def parseNumeric (r : List Char) : Option (Nat × Int) :=
  match digitPart r with
  | some (ip, r1) =>
    match r1 with
    | '.' :: r2 =>
      match digitPart r2 with
      | some (fp, r3) => parseExpTail ip fp r3
      | none => parseExpTail ip [] r2
    | _ => parseExpTail ip [] r1
  | none =>
    match r with
    | '.' :: r2 =>
      match digitPart r2 with
      | some (fp, r3) => parseExpTail [] fp r3
      | none => none
    | _ => none

/-- `float()` after the optional sign: `inf`/`infinity`/`nan` spellings
(case-insensitive), else a numeric literal. -/
def pyFloatParseUnsigned (neg : Bool) (r : List Char) : Option PyFloatVal :=
  if pyLower r = "inf".data || pyLower r = "infinity".data then
    some (.inf neg)
  else if pyLower r = "nan".data then some PyFloatVal.nan
  else
    match parseNumeric r with
    | some (D, k) => some (.finite neg D k)
    | none => none

/-- Python `float()` on a string (stripped input): optional sign, then the
unsigned forms. -/
def pyFloatParse (l : List Char) : Option PyFloatVal :=
  match l with
  | '-' :: r => pyFloatParseUnsigned true r
  | '+' :: r => pyFloatParseUnsigned false r
  | r => pyFloatParseUnsigned false r

/-- Number of decimal digits of a `Nat`. -/
def numDigits (n : Nat) : Nat :=
  (Nat.repr n).length

/-- Smallest exact magnitude that rounds to IEEE-double infinity, making
`float(s)` infinite and `int()` of it raise `OverflowError`. -/
def overflowThreshold : Nat :=
  2 ^ 1024 - 2 ^ 970

/-- Whether the exact decimal `D·10^k` reaches `overflowThreshold`; decided
by digit count outside a three-decade window so that no astronomic power is
ever evaluated. -/
def overflows (D : Nat) (k : Int) : Bool :=
  if D = 0 then false
  else if 310 ≤ (numDigits D : Int) + k then true
  else if (numDigits D : Int) + k ≤ 308 then false
  else if 0 ≤ k then overflowThreshold ≤ D * 10 ^ k.toNat
  else overflowThreshold * 10 ^ (-k).toNat ≤ D

/-- Truncation toward zero of the magnitude `D·10^k` (`int()` on a
non-negative float); guarded by digit count so deep negative exponents
short-circuit to 0. -/
def truncDec (D : Nat) (k : Int) : Nat :=
  if 0 ≤ k then D * 10 ^ k.toNat
  else if (numDigits D : Int) + k ≤ 0 then 0
  else D / 10 ^ (-k).toNat

/-- `to_int_safe`: `None` ↦ 0; strip; `""`/`"nan"` ↦ 0; drop commas and
spaces; then `int(float(u))` — parse failures and NaN raise `ValueError`,
caught to 0; infinities and overflowing magnitudes raise `OverflowError`,
which propagates; finite values truncate toward zero (negatives kept). -/
def to_int_safe (x : Option String) : Except PyExc Int :=
  match x with
  | none => .ok 0
  | some s =>
    let t := pyStrip s.data
    if t.isEmpty || pyLower t = ['n', 'a', 'n'] then .ok 0
    else
      let u := t.filter fun c => c ≠ ',' && c ≠ ' '
      match pyFloatParse u with
      | none => .ok 0
      | some PyFloatVal.nan => .ok 0
      | some (.inf _) => .error .overflowError
      | some (.finite neg D k) =>
        if overflows D k then .error .overflowError
        else .ok (if neg then -(truncDec D k : Int) else (truncDec D k : Int))

/-! ## Record Normalizer: the cleaning tail of `parse_holdings_from_xlsx` -/

/-- Stable insertion step: `a` goes before the first element it compares
`le` to, hence before equal elements inserted earlier. -/
def insertS (le : α → α → Bool) (a : α) : List α → List α
  | [] => [a]
  | b :: bs => if le a b then a :: b :: bs else b :: insertS le a bs

/-- Stable sort by a total preorder `le`: the model of pandas's stable
sorting passes (lexsort, and quicksort in its stable small-array regime). -/
def stableSort (le : α → α → Bool) : List α → List α
  | [] => []
  | a :: rest => insertS le a (stableSort le rest)

/-- Exceptions `parse_holdings_from_xlsx` can signal.  `headerNotFound`
and `missingColumn` are its two `RuntimeError` sites; `emptyHoldings` is
the spec's §7 failure, carried here to show the code never produces it;
`keyErrorCode` is the `KeyError` of `df["code"]` after the rename dict
collapses a doubly-bound column so that no `code` column remains;
`dupLabel` is the crash in pandas's duplicate-label machinery when the
rename leaves two `shares` columns (`df["shares"]` is then a frame and the
re-assignment of the applied result cannot align on a duplicate axis);
`overflowError` is the uncaught `OverflowError` propagating out of
`to_int_safe`. -/
inductive PError where
  | headerNotFound
  | missingColumn
  | emptyHoldings
  | keyErrorCode
  | dupLabel
  | overflowError
deriving DecidableEq, Repr

/-- A canonical holdings record: the `code, name, shares` row schema. -/
structure Holding where
  code : String
  name : String
  shares : Int
deriving DecidableEq, Repr

instance {ε α : Type} [DecidableEq ε] [DecidableEq α] : DecidableEq (Except ε α) :=
  fun x y =>
    match x, y with
    | .ok a, .ok b =>
      if h : a = b then .isTrue (by rw [h]) else .isFalse fun hh => h (Except.ok.inj hh)
    | .error e, .error f =>
      if h : e = f then .isTrue (by rw [h]) else .isFalse fun hh => h (Except.error.inj hh)
    | .ok _, .error _ => .isFalse fun hh => Except.noConfusion hh
    | .error _, .ok _ => .isFalse fun hh => Except.noConfusion hh

/-- ASCII letter. -/
def isAsciiAlpha (c : Char) : Bool :=
  ('A' ≤ c && c ≤ 'Z') || ('a' ≤ c && c ≤ 'z')

/-- Python `str.isdigit` on the ASCII range (nonempty, all digits). -/
def pyIsDigitStr (l : List Char) : Bool :=
  !l.isEmpty && l.all isAsciiDigit

/-- `str.replace(r"\.0$", "", regex=True)`: drop one trailing `".0"`. -/
def dropDotZero (l : List Char) : List Char :=
  if ['.', '0'].isSuffixOf l then l.dropLast.dropLast else l

/-- `x.zfill(4)` for an unsigned numeral. -/
def zfill4 (l : List Char) : List Char :=
  List.replicate (4 - l.length) '0' ++ l

/-- The code-column cleaning chain:
`astype(str).str.strip().str.replace(r"\.0$", "", regex=True)` then
`zfill(4)` when the text is all digits. -/
def cleanCode (c : Option String) : List Char :=
  let s := dropDotZero (pyStrip (cellStr c).data)
  if pyIsDigitStr s then zfill4 s else s

/-- `str.contains("合計|總計|小計", regex=True)`. -/
def isTotalMarker (l : List Char) : Bool :=
  containsSub "合計".data l || containsSub "總計".data l || containsSub "小計".data l

/-- `str.match(r"^[0-9A-Za-z.\x2d]+$")`. -/
def matchesTokenShape (l : List Char) : Bool :=
  !l.isEmpty && l.all fun c => isAsciiDigit c || isAsciiAlpha c || c = '.' || c = '-'

/-- Strict code-point lexicographic order on char lists (Python `str <`). -/
def lexLt : List Char → List Char → Bool
  | [], [] => false
  | [], _ :: _ => true
  | _ :: _, [] => false
  | a :: as, b :: bs => a < b || (a = b && lexLt as bs)

/-- Non-strict lexicographic order on the pandas group key `(code, name)`. -/
def keyLe (a b : String × String) : Bool :=
  lexLt a.1.data b.1.data ||
    (a.1 = b.1 && (lexLt a.2.data b.2.data || a.2 = b.2))

/-- `groupby(["code", "name"], as_index=False)["shares"].sum()`: one row per
distinct key, keys sorted ascending, shares summed. -/
def groupbySum (rows : List Holding) : List Holding :=
  let keys := (rows.map fun r => (r.code, r.name)).dedup
  (stableSort keyLe keys).map fun k =>
    ⟨k.1, k.2, ((rows.filter fun r => r.code = k.1 && r.name = k.2).map
      (fun r => r.shares)).sum⟩

/-- `sort_values("shares", ascending=False)`: pandas computes a stable
ascending argsort (its quicksort falls into the stable small-array regime on
these inputs) and reverses it. -/
def sortSharesDesc (l : List Holding) : List Holding :=
  (stableSort (fun a b => decide (a.shares ≤ b.shares)) l).reverse

/-- Name a header cell the way `read_excel` does (`NaN` ↦ `Unnamed: i`). -/
def headerCellName (i : Nat) (c : Option String) : String :=
  match c with
  | some s => s
  | none => "Unnamed: " ++ toString i

/-- Index form of `pick_column` over already-normalized names: position of
the first column containing the first matching candidate (the position a
by-name selection reaches when the normalized names are distinct). -/
def pickColumnIdx (colNames : List String) (candidates : List String) : Option Nat :=
  candidates.findSome? fun cand =>
    colNames.findIdx? fun col => containsSub cand.data col.data

/-- One cleaned record from one data row of the sheet.  The `shares` error
branch is written as 0 for totality only: `parse_holdings` propagates an
`OverflowError` from any data row before this projection is used. -/
def rowToHolding (codeIdx : Nat) (nameIdx : Option Nat) (sharesIdx : Nat)
    (row : List (Option String)) : Holding :=
  { code := String.mk (cleanCode (row.getD codeIdx none))
    name :=
      match nameIdx with
      | some i => String.mk (pyStrip (cellStr (row.getD i none)).data)
      | none => ""
    shares :=
      match to_int_safe (row.getD sharesIdx none) with
      | .ok n => n
      | .error _ => 0 }

/-- Row filter of the cleaning tail: nonempty code, no subtotal marker,
token-shaped code. -/
def keepHolding (h : Holding) : Bool :=
  h.code.data.length > 0 && !isTotalMarker h.code.data &&
    matchesTokenShape h.code.data

/-- Normalized column names of the header row, as `read_excel` plus the
`df.columns = [normalize_colname(c) for c in df.columns]` line produce
them. -/
def headerColNames (t : List (List (Option String))) (hr : Nat) : List String :=
  (t.getD hr []).enum.map fun p => normalize_colname (headerCellName p.1 p.2)

/-- The columns kept: `keep = [code_col, shares_col]` with `name_col`
inserted at position 1 when present. -/
def keepCols (cc : String) (nc : Option String) (sc : String) : List String :=
  match nc with
  | some n => [cc, n, sc]
  | none => [cc, sc]

/-- The rename dict literal
`{code_col: "code", name_col: "name", shares_col: "shares"}` as its ordered
entries; duplicate keys collapse with the later entry winning, as a Python
dict literal does. -/
def renameEntries (cc : String) (nc : Option String) (sc : String) :
    List (String × String) :=
  match nc with
  | some n => [(cc, "code"), (n, "name"), (sc, "shares")]
  | none => [(cc, "code"), (sc, "shares")]

/-- Apply the collapsed rename dict to one column label: the last entry
with a matching key wins; unmatched labels stay. -/
def applyRename (entries : List (String × String)) (col : String) : String :=
  match entries.reverse.find? (fun e => e.1 = col) with
  | some e => e.2
  | none => col

/-- Column labels after `df[keep].rename(columns={...})`. -/
def renamedCols (cc : String) (nc : Option String) (sc : String) : List String :=
  (keepCols cc nc sc).map (applyRename (renameEntries cc nc sc))

/-- Position of a picked column name in the header (its by-name selection
index for distinct normalized names). -/
def colIdx (cols : List String) (name : String) : Nat :=
  (cols.findIdx? fun c => c = name).getD 0

/-- Whether `df["shares"].apply(to_int_safe)` raises: some data row's
quantity cell makes `to_int_safe` throw `OverflowError`.  The apply runs
before the row filters, so dropped rows can still raise. -/
def anyShareRaises (t : List (List (Option String))) (hr si : Nat) : Bool :=
  (t.drop (hr + 1)).any fun row =>
    match to_int_safe (row.getD si none) with
    | .error _ => true
    | .ok _ => false

/-- The cleaning tail run below the header once the columns are bound:
project, clean, filter, aggregate, sort. -/
def cleanedRows (t : List (List (Option String))) (hr : Nat)
    (cc : String) (nc : Option String) (sc : String) : List Holding :=
  ((t.drop (hr + 1)).map (rowToHolding (colIdx (headerColNames t hr) cc)
    (nc.map fun n => colIdx (headerColNames t hr) n)
    (colIdx (headerColNames t hr) sc))).filter keepHolding

/-- The body after column resolution, in the source's crash order:
`df["code"]` raises `KeyError` when the rename collapse left no `code`
label; a duplicated `shares` label crashes in pandas duplicate-label
alignment; the shares `apply` propagates `OverflowError`; otherwise the
cleaned, aggregated, sorted snapshot is returned — empty or not. -/
def normalizeResolved (t : List (List (Option String))) (hr : Nat)
    (cc : String) (nc : Option String) (sc : String) :
    Except PError (List Holding) :=
  if "code" ∈ renamedCols cc nc sc then
    if (renamedCols cc nc sc).count "shares" ≤ 1 then
      if anyShareRaises t hr (colIdx (headerColNames t hr) sc) then
        .error .overflowError
      else .ok (sortSharesDesc (groupbySum (cleanedRows t hr cc nc sc)))
    else .error .dupLabel
  else .error .keyErrorCode

/-- The Record Normalizer: `parse_holdings_from_xlsx` from the header scan
to the returned frame (the date extraction and file I/O around it are the
caller's).  Headers whose distinct cells normalize to identical labels fall
into further pandas duplicate-label behavior not modelled here. -/
def parse_holdings (t : List (List (Option String))) :
    Except PError (List Holding) :=
  match find_header_row t with
  | none => .error .headerNotFound
  | some hr =>
    match pick_column (headerColNames t hr) mustHaveAny,
        pick_column (headerColNames t hr) sharesAny with
    | some cc, some sc =>
      normalizeResolved t hr cc
        (pick_column (headerColNames t hr) shouldHaveAny) sc
    | _, _ => .error .missingColumn

/-! ## Snapshot Differ: `compute_diff` -/

/-- The five-way diff classification. -/
inductive DStatus where
  | NEW
  | OUT
  | UP
  | DOWN
  | SAME
deriving DecidableEq, Repr

/-- One row of the diff frame. -/
structure DiffEntry where
  code : String
  name : String
  prev_shares : Int
  curr_shares : Int
  delta : Int
  status : DStatus
deriving DecidableEq, Repr

/-- One row of `prev.merge(curr, on=["code"], how="outer")`: `none` fields
are the `NaN`s of an unmatched side. -/
structure MergedRow where
  code : String
  name_prev : Option String
  name_curr : Option String
  prev_sh : Option Int
  curr_sh : Option Int
deriving DecidableEq, Repr

/-- Rows the merge produces for one left record: one per match on the
right, or a single right-`NaN` row when unmatched. -/
def leftRows (curr : List Holding) (p : Holding) : List MergedRow :=
  let ms := curr.filter fun c => c.code = p.code
  if ms.isEmpty then [⟨p.code, some p.name, none, some p.shares, none⟩]
  else ms.map fun c => ⟨p.code, some p.name, some c.name, some p.shares, some c.shares⟩

/-- Rows the merge appends for right records with no left match. -/
def rightRows (prev curr : List Holding) : List MergedRow :=
  (curr.filter fun c => !(prev.any fun p => p.code = c.code)).map fun c =>
    ⟨c.code, none, some c.name, none, some c.shares⟩

/-- Outer merge on `code`: left rows in left order, each paired with every
match on the right (or with `NaN`s when unmatched), then unmatched right
rows in right order. -/
def outerMerge (prev curr : List Holding) : List MergedRow :=
  prev.flatMap (leftRows curr) ++ rightRows prev curr

/-- `status_row` inside `compute_diff`. -/
def status_row (prev_sh curr_sh : Int) : DStatus :=
  if prev_sh = 0 && curr_sh > 0 then .NEW
  else if prev_sh > 0 && curr_sh = 0 then .OUT
  else if curr_sh - prev_sh > 0 then .UP
  else if curr_sh - prev_sh < 0 then .DOWN
  else .SAME

/-- Field assembly of `compute_diff`: name prefers current, falls back to
previous; missing shares fill with 0; `delta = curr − prev`. -/
def mergedToEntry (r : MergedRow) : DiffEntry :=
  let nc := r.name_curr.getD ""
  let nm := if nc = "" then r.name_prev.getD "" else nc
  let p := r.prev_sh.getD 0
  let c := r.curr_sh.getD 0
  ⟨r.code, nm, p, c, c - p, status_row p c⟩

/-- `order_map = {NEW: 0, UP: 1, DOWN: 2, OUT: 3, SAME: 4}`. -/
def statusOrder : DStatus → Nat
  | .NEW => 0
  | .UP => 1
  | .DOWN => 2
  | .OUT => 3
  | .SAME => 4

/-- `sort_values(["order", "delta"], ascending=[True, False])` as the stable
lexicographic comparison pandas's lexsort implements. -/
def diffLe (a b : DiffEntry) : Bool :=
  statusOrder a.status < statusOrder b.status ||
    (statusOrder a.status = statusOrder b.status && b.delta ≤ a.delta)

/-- `compute_diff`: outer merge, classify, sort by status rank then delta
descending. -/
def compute_diff (prev curr : List Holding) : List DiffEntry :=
  stableSort diffLe ((outerMerge prev curr).map mergedToEntry)

/-! ## Report Summarizer: `top_rows` in `write_summary_markdown` -/

/-- `sort_values("delta")` ascending (stable). -/
def sortDeltaAsc (l : List DiffEntry) : List DiffEntry :=
  stableSort (fun a b => decide (a.delta ≤ b.delta)) l

/-- `sort_values("delta", ascending=False)`: stable ascending argsort,
reversed. -/
def sortDeltaDesc (l : List DiffEntry) : List DiffEntry :=
  (stableSort (fun a b => decide (a.delta ≤ b.delta)) l).reverse

/-- `top_rows(status, n)`: filter by status, order DOWN/OUT ascending and
UP/NEW descending by delta, take the first `n`. -/
def top_rows (diff : List DiffEntry) (status : DStatus) (n : Nat) : List DiffEntry :=
  let sub := diff.filter fun e => e.status = status
  let sorted :=
    if status = .DOWN || status = .OUT then sortDeltaAsc sub
    else if status = .UP || status = .NEW then sortDeltaDesc sub
    else sub
  sorted.take n

/-! ## Claims -/

/-- C6: the Date Normalizer maps `"115/01/09"`, `"115-01-09"` and
`"民國115年01月09日"` all to the canonical `"20260109"` (era year + 1911,
validated as a real calendar date), and returns `none` for the empty string
and for malformed or calendar-invalid inputs; the function is total, so no
input raises. -/
theorem date_normalizer_canonical :
    roc_to_ad_yyyymmdd "115/01/09" = some "20260109" ∧
    roc_to_ad_yyyymmdd "115-01-09" = some "20260109" ∧
    roc_to_ad_yyyymmdd "民國115年01月09日" = some "20260109" ∧
    roc_to_ad_yyyymmdd "" = none ∧
    roc_to_ad_yyyymmdd "   " = none ∧
    roc_to_ad_yyyymmdd "資料日期" = none ∧
    roc_to_ad_yyyymmdd "9/1/9" = none ∧
    roc_to_ad_yyyymmdd "115/13/09" = none ∧
    roc_to_ad_yyyymmdd "115/02/30" = none ∧
    roc_to_ad_yyyymmdd "115/00/09" = none := by
  decide

/-- C10: an identifier with quantity 0 in both snapshots is classified
`SAME` with delta 0 by the Snapshot Differ — `status_row` falls through its
`NEW`/`OUT`/`UP`/`DOWN` guards to the `SAME` default. -/
theorem differ_zero_zero_same :
    status_row 0 0 = DStatus.SAME ∧
    compute_diff [⟨"0050", "x", 0⟩] [⟨"0050", "x", 0⟩] =
      [⟨"0050", "x", 0, 0, 0, DStatus.SAME⟩] := by
  decide

/-- C1 counterexample: a negative quantity cell is not coerced to 0 —
`to_int_safe` returns the negative value and the Record Normalizer
produces a Holding with quantity −5 from it — and parsing is not
raise-free: an `inf` cell raises an `OverflowError` past the
`except ValueError` handler. -/
theorem quantity_negative_not_clamped :
    to_int_safe (some "-5") = .ok (-5) ∧
    to_int_safe (some "inf") = .error .overflowError ∧
    parse_holdings [[some "代號", some "股數"], [some "2330", some "-5"]] =
      .ok [⟨"2330", "", -5⟩] ∧
    (-5 : Int) < 0 := by
  decide

/-- C2 counterexample: a table whose only data row is a subtotal marker is
dropped entirely, yet the Record Normalizer returns the empty snapshot
successfully instead of signalling `EmptyHoldings`. -/
theorem empty_snapshot_returned_ok :
    parse_holdings [[some "代號", some "股數"], [some "合計", some "999"]] =
      .ok [] := by
  decide

/-- C4 counterexample: two records with equal quantity come out with
identifiers in descending order (`"1101"` before `"0050"`), refuting the
identifier-ascending tie-break: the script sorts by shares only, as a
reversed stable ascending pass over the identifier-ascending grouped rows. -/
theorem sort_tiebreak_not_ascending :
    parse_holdings
        [[some "代號", some "名稱", some "股數"],
         [some "0050", some "A", some "100"],
         [some "1101", some "B", some "100"]] =
      .ok [⟨"1101", "B", 100⟩, ⟨"0050", "A", 100⟩] ∧
    lexLt "0050".data "1101".data = true := by
  decide

/-! ### Sorting lemmas for the stable-sort model -/

theorem insertS_perm (le : α → α → Bool) (a : α) (l : List α) :
    List.Perm (insertS le a l) (a :: l) := by
  induction l with
  | nil => exact List.Perm.refl _
  | cons b bs ih =>
    unfold insertS
    split
    · exact List.Perm.refl _
    · exact (List.Perm.cons b ih).trans (List.Perm.swap a b bs)

theorem stableSort_perm (le : α → α → Bool) (l : List α) :
    List.Perm (stableSort le l) l := by
  induction l with
  | nil => exact List.Perm.refl _
  | cons a rest ih => exact (insertS_perm le a _).trans (List.Perm.cons a ih)

theorem stableSort_length (le : α → α → Bool) (l : List α) :
    (stableSort le l).length = l.length :=
  (stableSort_perm le l).length_eq

theorem pairwise_insertS (le : α → α → Bool)
    (htr : ∀ a b c, le a b = true → le b c = true → le a c = true)
    (hto : ∀ a b, le a b = true ∨ le b a = true) (a : α) (l : List α)
    (h : l.Pairwise fun x y => le x y = true) :
    (insertS le a l).Pairwise fun x y => le x y = true := by
  induction l with
  | nil => simp [insertS]
  | cons b bs ih =>
    rw [List.pairwise_cons] at h
    obtain ⟨hb, hbs⟩ := h
    unfold insertS
    split
    · rename_i hab
      refine List.pairwise_cons.mpr ⟨?_, List.pairwise_cons.mpr ⟨hb, hbs⟩⟩
      intro x hx
      rcases List.mem_cons.mp hx with rfl | hx'
      · exact hab
      · exact htr a b x hab (hb x hx')
    · rename_i hab
      refine List.pairwise_cons.mpr ⟨?_, ih hbs⟩
      intro x hx
      rcases List.mem_cons.mp ((insertS_perm le a bs).mem_iff.mp hx) with rfl | hx'
      · rcases hto x b with h1 | h1
        · exact absurd h1 hab
        · exact h1
      · exact hb x hx'

theorem pairwise_stableSort (le : α → α → Bool)
    (htr : ∀ a b c, le a b = true → le b c = true → le a c = true)
    (hto : ∀ a b, le a b = true ∨ le b a = true) (l : List α) :
    (stableSort le l).Pairwise fun x y => le x y = true := by
  induction l with
  | nil => simp [stableSort]
  | cons a rest ih => exact pairwise_insertS le htr hto a _ ih

theorem sortSharesDesc_pairwise (l : List Holding) :
    (sortSharesDesc l).Pairwise fun a b => b.shares ≤ a.shares := by
  unfold sortSharesDesc
  rw [List.pairwise_reverse]
  have h := pairwise_stableSort (fun a b => decide (a.shares ≤ b.shares))
    (by intro a b c h1 h2; simp only [decide_eq_true_eq] at *; omega)
    (by intro a b; simp only [decide_eq_true_eq]; exact Int.le_total a.shares b.shares) l
  exact h.imp fun hab => by simpa using hab

/-- C4 (amended): snapshots returned by the Record Normalizer are sorted by
quantity descending, but ties are not broken by identifier ascending: the
final sort orders by shares only, and (as a reversed stable ascending pass
over the identifier-ascending aggregated rows) leaves equal-quantity records
in identifier-descending order. -/
theorem snapshot_sorted_desc (t : List (List (Option String)))
    (res : List Holding) (h : parse_holdings t = .ok res) :
    res.Pairwise fun a b => b.shares ≤ a.shares := by
  unfold parse_holdings at h
  split at h
  · exact Except.noConfusion h
  · split at h
    · unfold normalizeResolved at h
      split at h
      · split at h
        · split at h
          · exact Except.noConfusion h
          · rw [← Except.ok.inj h]
            exact sortSharesDesc_pairwise _
        · exact Except.noConfusion h
      · exact Except.noConfusion h
    · exact Except.noConfusion h

/-- Witness for `snapshot_sorted_desc` at a concrete two-row table. -/
theorem snapshot_sorted_desc_witness :
    ([⟨"1101", "B", 100⟩, ⟨"0050", "A", 100⟩] : List Holding).Pairwise
      (fun a b => b.shares ≤ a.shares) :=
  snapshot_sorted_desc
    [[some "代號", some "名稱", some "股數"],
     [some "0050", some "A", some "100"],
     [some "1101", some "B", some "100"]] _ (by decide)

/-- C5 counterexample: a header cell containing both a label keyword and an
identifier keyword is bound by both canonical fields — `pick_column` runs
independently per field with no exclusion of already-taken columns. -/
theorem column_bound_twice :
    pick_column ["名稱及代號", "股數"] mustHaveAny = some "名稱及代號" ∧
    pick_column ["名稱及代號", "股數"] shouldHaveAny = some "名稱及代號" ∧
    pickColumnIdx ["名稱及代號", "股數"] mustHaveAny = some 0 ∧
    pickColumnIdx ["名稱及代號", "股數"] shouldHaveAny = some 0 := by
  decide

/-- Thirty `UP` entries for exercising `top_rows` at `top_n = 15`. -/
def upThirty : List DiffEntry :=
  (List.range 30).map fun i => ⟨toString i, "", 0, 0, Int.ofNat i, DStatus.UP⟩

/-- C8: `top_rows` returns at most `top_n` entries per status group —
exactly `min top_n (group size)` — ordered by delta descending for `NEW`
and `UP` and ascending (most negative first) for `DOWN` and `OUT`. -/
theorem summarizer_top_n (diff : List DiffEntry) (status : DStatus) (n : Nat) :
    (top_rows diff status n).length ≤ n ∧
    (top_rows diff status n).length =
      min n (diff.filter fun e => e.status = status).length ∧
    (status = DStatus.UP ∨ status = DStatus.NEW →
      (top_rows diff status n).Pairwise fun a b => b.delta ≤ a.delta) ∧
    (status = DStatus.DOWN ∨ status = DStatus.OUT →
      (top_rows diff status n).Pairwise fun a b => a.delta ≤ b.delta) := by
  have hlen : ∀ l : List DiffEntry,
      (stableSort (fun a b => decide (a.delta ≤ b.delta)) l).length = l.length :=
    fun l => stableSort_length _ l
  have hsorted : ∀ l : List DiffEntry,
      (stableSort (fun a b => decide (a.delta ≤ b.delta)) l).Pairwise
        fun a b => a.delta ≤ b.delta := by
    intro l
    have h := pairwise_stableSort (fun a b => decide (a.delta ≤ b.delta))
      (by intro a b c h1 h2; simp only [decide_eq_true_eq] at *; omega)
      (by intro a b; simp only [decide_eq_true_eq]; exact Int.le_total a.delta b.delta) l
    exact h.imp fun hab => by simpa using hab
  refine ⟨?_, ?_, ?_, ?_⟩
  · cases status <;>
      simp [top_rows, sortDeltaAsc, sortDeltaDesc, List.length_take, hlen]
  · cases status <;>
      simp [top_rows, sortDeltaAsc, sortDeltaDesc, List.length_take, hlen]
  · rintro (rfl | rfl)
    · have he : top_rows diff DStatus.UP n =
          (sortDeltaDesc (diff.filter fun e => e.status = DStatus.UP)).take n := rfl
      rw [he]
      refine List.Pairwise.sublist (List.take_sublist _ _) ?_
      unfold sortDeltaDesc
      rw [List.pairwise_reverse]
      exact hsorted _
    · have he : top_rows diff DStatus.NEW n =
          (sortDeltaDesc (diff.filter fun e => e.status = DStatus.NEW)).take n := rfl
      rw [he]
      refine List.Pairwise.sublist (List.take_sublist _ _) ?_
      unfold sortDeltaDesc
      rw [List.pairwise_reverse]
      exact hsorted _
  · rintro (rfl | rfl)
    · have he : top_rows diff DStatus.DOWN n =
          (sortDeltaAsc (diff.filter fun e => e.status = DStatus.DOWN)).take n := rfl
      rw [he]
      exact List.Pairwise.sublist (List.take_sublist _ _) (hsorted _)
    · have he : top_rows diff DStatus.OUT n =
          (sortDeltaAsc (diff.filter fun e => e.status = DStatus.OUT)).take n := rfl
      rw [he]
      exact List.Pairwise.sublist (List.take_sublist _ _) (hsorted _)

/-- Witness for `summarizer_top_n`: thirty `UP` entries at `top_n = 15`
yield exactly fifteen, sorted by descending delta. -/
theorem summarizer_top_n_witness :
    (top_rows upThirty DStatus.UP 15).length = 15 ∧
    (top_rows upThirty DStatus.UP 15).Pairwise (fun a b => b.delta ≤ a.delta) := by
  have h := summarizer_top_n upThirty DStatus.UP 15
  exact ⟨by rw [h.2.1]; decide, h.2.2.1 (Or.inl rfl)⟩

/-- C9: identifier cleaning strips whitespace and one trailing `".0"` after
stringification, left-pads all-digit identifiers with zeros to at least 4
characters, and leaves identifiers containing a non-digit character
unpadded. -/
theorem identifier_cleanup (s : String) :
    (pyIsDigitStr (dropDotZero (pyStrip s.data)) = true →
      cleanCode (some s) =
        List.replicate (4 - (dropDotZero (pyStrip s.data)).length) '0' ++
          dropDotZero (pyStrip s.data) ∧
      4 ≤ (cleanCode (some s)).length) ∧
    (pyIsDigitStr (dropDotZero (pyStrip s.data)) = false →
      cleanCode (some s) = dropDotZero (pyStrip s.data)) ∧
    cleanCode (some "50") = ['0', '0', '5', '0'] ∧
    cleanCode (some " 2330.0 ") = ['2', '3', '3', '0'] ∧
    cleanCode (some "AU") = ['A', 'U'] := by
  refine ⟨?_, ?_, by decide, by decide, by decide⟩
  · intro hd
    have he : cleanCode (some s) = zfill4 (dropDotZero (pyStrip s.data)) := by
      unfold cleanCode cellStr
      rw [Option.getD_some, if_pos hd]
    constructor
    · rw [he]; rfl
    · rw [he]
      unfold zfill4
      rw [List.length_append, List.length_replicate]
      omega
  · intro hd
    unfold cleanCode cellStr
    rw [Option.getD_some, if_neg (by simp [hd])]

/-- Witness for `identifier_cleanup` at `"50"`, which pads to `"0050"`. -/
theorem identifier_cleanup_witness :
    pyIsDigitStr (dropDotZero (pyStrip "50".data)) = true ∧
    cleanCode (some "50") =
      List.replicate (4 - (dropDotZero (pyStrip "50".data)).length) '0' ++
        dropDotZero (pyStrip "50".data) ∧
    4 ≤ (cleanCode (some "50")).length := by
  have h := (identifier_cleanup "50").1 (by decide)
  exact ⟨by decide, h.1, h.2⟩

/-- C1 (amended): quantity parsing strips thousands separators and spaces,
parses the text as Python `float()` does (decimal, exponent and underscore
forms), truncates toward zero, and coerces unparsable and NaN-valued cells
to 0 — but negative values are preserved rather than coerced to 0, so the
Record Normalizer can produce a Holding with negative quantity, and
infinity spellings or magnitudes beyond the double range raise an uncaught
`OverflowError`, so parsing is not raise-free either. -/
theorem quantity_parsing_amended :
    (∀ x : Option String,
      to_int_safe x = .ok 0 ∨
      to_int_safe x = .error .overflowError ∨
      ∃ s neg D k, x = some s ∧
        pyFloatParse ((pyStrip s.data).filter fun c => c ≠ ',' && c ≠ ' ') =
          some (.finite neg D k) ∧
        to_int_safe x =
          .ok (if neg then -(truncDec D k : Int) else (truncDec D k : Int))) ∧
    to_int_safe (some "1,234.9") = .ok 1234 ∧
    to_int_safe (some "1e3") = .ok 1000 ∧
    to_int_safe (some "1_0") = .ok 10 ∧
    to_int_safe (some " -2.9 ") = .ok (-2) ∧
    to_int_safe (some "-5") = .ok (-5) ∧
    to_int_safe (some "12a") = .ok 0 ∧
    to_int_safe none = .ok 0 ∧
    to_int_safe (some "NaN") = .ok 0 ∧
    to_int_safe (some "-nan") = .ok 0 ∧
    to_int_safe (some "inf") = .error .overflowError ∧
    to_int_safe (some "-Infinity") = .error .overflowError ∧
    to_int_safe (some "1e400") = .error .overflowError ∧
    to_int_safe (some "1e-400") = .ok 0 := by
  refine ⟨?_, by decide, by decide, by decide, by decide, by decide, by decide,
    by decide, by decide, by decide, by decide, by decide, by decide, by decide⟩
  intro x
  match x with
  | none => exact Or.inl rfl
  | some s =>
    by_cases h1 : ((pyStrip s.data).isEmpty ||
        decide (pyLower (pyStrip s.data) = ['n', 'a', 'n'])) = true
    · left
      unfold to_int_safe
      dsimp only
      rw [if_pos h1]
    · cases h2 : pyFloatParse ((pyStrip s.data).filter fun c => c ≠ ',' && c ≠ ' ') with
      | none =>
        left
        unfold to_int_safe
        dsimp only
        rw [if_neg h1, h2]
      | some v =>
        cases v with
        | nan =>
          left
          unfold to_int_safe
          dsimp only
          rw [if_neg h1, h2]
        | inf b =>
          right; left
          unfold to_int_safe
          dsimp only
          rw [if_neg h1, h2]
        | finite neg D k =>
          by_cases h3 : overflows D k = true
          · right; left
            unfold to_int_safe
            dsimp only
            rw [if_neg h1, h2]
            dsimp only
            rw [if_pos h3]
          · right; right
            refine ⟨s, neg, D, k, rfl, h2, ?_⟩
            unfold to_int_safe
            dsimp only
            rw [if_neg h1, h2]
            dsimp only
            rw [if_neg h3]

/-- C2 (amended): when the cleaning pipeline drops every row, the Record
Normalizer returns the empty snapshot (`ok []`) rather than signalling a
failure; no `EmptyHoldings` failure is ever produced. -/
theorem empty_holdings_never_signalled :
    (∀ t : List (List (Option String)),
      parse_holdings t ≠ .error .emptyHoldings) ∧
    (∀ (t : List (List (Option String))) (hr : Nat) (cc sc : String),
      find_header_row t = some hr →
      pick_column (headerColNames t hr) mustHaveAny = some cc →
      pick_column (headerColNames t hr) sharesAny = some sc →
      "code" ∈ renamedCols cc (pick_column (headerColNames t hr) shouldHaveAny) sc →
      (renamedCols cc (pick_column (headerColNames t hr) shouldHaveAny) sc).count
        "shares" ≤ 1 →
      anyShareRaises t hr (colIdx (headerColNames t hr) sc) = false →
      cleanedRows t hr cc (pick_column (headerColNames t hr) shouldHaveAny) sc = [] →
      parse_holdings t = .ok []) ∧
    parse_holdings [[some "代號", some "名稱", some "股數"],
      [some "小計", some "", some "7"]] = .ok [] := by
  refine ⟨?_, ?_, by decide⟩
  · intro t h
    unfold parse_holdings at h
    split at h
    · simp at h
    · split at h
      · unfold normalizeResolved at h
        split at h
        · split at h
          · split at h
            · simp at h
            · simp at h
          · simp at h
        · simp at h
      · simp at h
  · intro t hr cc sc h1 h2 h3 h4 h5 h6 h7
    unfold parse_holdings
    rw [h1]
    dsimp only
    rw [h2, h3]
    dsimp only
    unfold normalizeResolved
    rw [if_pos h4, if_pos h5, if_neg (by simp [h6]), h7]
    rfl

/-- C5 (amended): the Column Resolver resolves each canonical field
independently — first candidate in priority order, then first column whose
normalized name contains it — and this can bind two canonical fields to the
same source column; the identifier → label → quantity order confers no
exclusivity.  Every resolved column belongs to the header and contains the
matched candidate. -/
theorem column_resolution_sound (cols cands : List String) (col : String)
    (h : pick_column cols cands = some col) :
    (col ∈ cols ∧
      ∃ cand ∈ cands, containsSub cand.data (normalize_colname col).data = true) ∧
    pick_column ["標的名稱代號", "股數"] mustHaveAny = some "標的名稱代號" ∧
    pick_column ["標的名稱代號", "股數"] shouldHaveAny = some "標的名稱代號" := by
  refine ⟨?_, by decide, by decide⟩
  unfold pick_column at h
  induction cands with
  | nil => simp [List.findSome?] at h
  | cons c cs ih =>
    rw [List.findSome?_cons] at h
    cases hc : cols.find? fun col' => containsSub c.data (normalize_colname col').data with
    | some col' =>
      rw [hc] at h
      obtain rfl : col' = col := Option.some.inj h
      have hp := List.find?_some hc
      exact ⟨List.mem_of_find?_eq_some hc, c, List.mem_cons_self c cs, hp⟩
    | none =>
      rw [hc] at h
      obtain ⟨h1, cand, hcand, hsub⟩ := ih h
      exact ⟨h1, cand, List.mem_cons_of_mem c hcand, hsub⟩

/-- Witness for `column_resolution_sound` at a plain two-column header. -/
theorem column_resolution_sound_witness :
    (("代號" : String) ∈ ["代號", "股數"] ∧
      ∃ cand ∈ mustHaveAny,
        containsSub cand.data (normalize_colname "代號").data = true) ∧
    pick_column ["標的名稱代號", "股數"] mustHaveAny = some "標的名稱代號" ∧
    pick_column ["標的名稱代號", "股數"] shouldHaveAny = some "標的名稱代號" :=
  column_resolution_sound ["代號", "股數"] mustHaveAny "代號" (by decide)

/-! ### Header Locator lemmas -/

/-- The claim-level qualification: the joined non-empty cell text contains
at least one identifier keyword and at least one quantity keyword. -/
def headerQualifies (row : List (Option String)) : Bool :=
  hasAnyKeyword (rowJoin row) mustHaveAny && hasAnyKeyword (rowJoin row) sharesAny

theorem mem_of_containsSub {n h : List Char} (hc : containsSub n h = true) :
    ∀ c ∈ n, c ∈ h := by
  induction h with
  | nil =>
    intro c hcn
    simp only [containsSub, List.isEmpty_iff] at hc
    subst hc
    cases hcn
  | cons b bs ih =>
    intro c hcn
    simp only [containsSub, Bool.or_eq_true] at hc
    rcases hc with hp | hrest
    · have hpre : n <+: b :: bs := List.isPrefixOf_iff_prefix.mp hp
      exact hpre.sublist.subset hcn
    · exact List.mem_cons_of_mem b (ih hrest c hcn)

/-- The `continue` guards of the scan loop never skip a qualifying row: an
empty or `"nan"` joined row cannot contain an identifier keyword. -/
theorem headerRowHit_eq_qualifies (row : List (Option String)) :
    headerRowHit row = headerQualifies row := by
  unfold headerRowHit headerQualifies
  dsimp only
  split
  · rename_i hskip
    have hno : hasAnyKeyword (rowJoin row) mustHaveAny = false := by
      unfold hasAnyKeyword
      rw [List.any_eq_false]
      intro k hk hcs
      simp only [mustHaveAny, List.mem_cons, List.not_mem_nil, or_false] at hk
      simp only [Bool.or_eq_true] at hskip
      rcases hskip with hemp | hnan
      · rw [List.isEmpty_iff.mp hemp] at hcs
        rcases hk with rfl | rfl | rfl | rfl <;> exact absurd hcs (by decide)
      · have hnan' : pyLower (rowJoin row) = ['n', 'a', 'n'] := of_decide_eq_true hnan
        have hmem : '號' ∈ rowJoin row := by
          apply mem_of_containsSub hcs
          rcases hk with rfl | rfl | rfl | rfl <;> decide
        have hmem2 : Char.toLower '號' ∈ pyLower (rowJoin row) :=
          List.mem_map_of_mem Char.toLower hmem
        rw [hnan'] at hmem2
        revert hmem2
        decide
    simp [hno]
  · rfl

theorem headerScan_some (t : List (List (Option String))) :
    ∀ fuel i k, headerScan t i fuel = some k →
      i ≤ k ∧ k < i + fuel ∧ headerRowHit (t.getD k []) = true ∧
      ∀ j, i ≤ j → j < k → headerRowHit (t.getD j []) = false := by
  intro fuel
  induction fuel with
  | zero => intro i k h; simp [headerScan] at h
  | succ f ih =>
    intro i k h
    unfold headerScan at h
    split at h
    · rename_i hhit
      obtain rfl : i = k := Option.some.inj h
      exact ⟨Nat.le_refl _, by omega, hhit,
        fun j hj1 hj2 => absurd hj1 (by omega)⟩
    · rename_i hmiss
      obtain ⟨h1, h2, h3, h4⟩ := ih (i + 1) k h
      refine ⟨by omega, by omega, h3, ?_⟩
      intro j hj1 hj2
      rcases Nat.eq_or_lt_of_le hj1 with rfl | hlt
      · simpa using hmiss
      · exact h4 j (by omega) hj2

theorem headerScan_none (t : List (List (Option String))) :
    ∀ fuel i, headerScan t i fuel = none ↔
      ∀ j, i ≤ j → j < i + fuel → headerRowHit (t.getD j []) = false := by
  intro fuel
  induction fuel with
  | zero =>
    intro i
    simp only [headerScan]
    constructor
    · intro _ j hj1 hj2; omega
    · intro _; trivial
  | succ f ih =>
    intro i
    unfold headerScan
    split
    · rename_i hhit
      constructor
      · intro h; exact Option.noConfusion h
      · intro hall
        have := hall i (Nat.le_refl i) (by omega)
        rw [hhit] at this
        cases this
    · rename_i hmiss
      rw [ih (i + 1)]
      constructor
      · intro hall j hj1 hj2
        rcases Nat.eq_or_lt_of_le hj1 with rfl | hlt
        · simpa using hmiss
        · exact hall j (by omega) (by omega)
      · intro hall j hj1 hj2
        exact hall j (by omega) (by omega)

/-- C7: the Header Locator scans at most the first `min(40, len)` rows and
returns the index of the first row whose concatenated non-empty cell text
contains an identifier keyword and a quantity keyword, or `none` when no
scanned row qualifies. -/
theorem header_locator_first_match (t : List (List (Option String))) :
    (∀ i, find_header_row t = some i →
      i < min 40 t.length ∧ headerQualifies (t.getD i []) = true ∧
      ∀ j, j < i → headerQualifies (t.getD j []) = false) ∧
    (find_header_row t = none ↔
      ∀ i, i < min 40 t.length → headerQualifies (t.getD i []) = false) := by
  constructor
  · intro i h
    obtain ⟨_, h2, h3, h4⟩ := headerScan_some t (min 40 t.length) 0 i h
    refine ⟨by omega, by rw [← headerRowHit_eq_qualifies]; exact h3, ?_⟩
    intro j hj
    rw [← headerRowHit_eq_qualifies]
    exact h4 j (Nat.zero_le j) hj
  · unfold find_header_row
    rw [headerScan_none t (min 40 t.length) 0]
    constructor
    · intro hall i hi
      rw [← headerRowHit_eq_qualifies]
      exact hall i (Nat.zero_le i) (by omega)
    · intro hall j _ hj
      rw [headerRowHit_eq_qualifies]
      exact hall j (by omega)

/-- Witness for `header_locator_first_match` at a two-row table whose
second row is the header. -/
theorem header_locator_first_match_witness :
    1 < min 40 ([[some "x"], [some "代號", some "股數"]] :
        List (List (Option String))).length ∧
    headerQualifies (([[some "x"], [some "代號", some "股數"]] :
        List (List (Option String))).getD 1 []) = true ∧
    headerQualifies (([[some "x"], [some "代號", some "股數"]] :
        List (List (Option String))).getD 0 []) = false := by
  have h := (header_locator_first_match
    [[some "x"], [some "代號", some "股數"]]).1 1 (by decide)
  exact ⟨h.1, h.2.1, h.2.2 0 (by decide)⟩

/-! ### Snapshot Differ lemmas -/

theorem length_filter_code_le_one {curr : List Holding}
    (hc : (curr.map fun h => h.code).Nodup) (a : String) :
    (curr.filter fun c => c.code = a).length ≤ 1 := by
  induction curr with
  | nil => simp
  | cons c rest ih =>
    rw [List.map_cons, List.nodup_cons] at hc
    obtain ⟨hc1, hc2⟩ := hc
    by_cases h : c.code = a
    · rw [List.filter_cons_of_pos (by simpa using h)]
      have hnil : rest.filter (fun c => decide (c.code = a)) = [] := by
        rw [List.filter_eq_nil_iff]
        intro x hx hxa
        apply hc1
        have hxa' : x.code = a := by simpa using hxa
        rw [h, ← hxa']
        exact List.mem_map_of_mem (fun h => h.code) hx
      simp [hnil]
    · rw [List.filter_cons_of_neg (by simpa using h)]
      exact ih hc2

theorem leftRows_code {curr : List Holding} {p : Holding} :
    ∀ r ∈ leftRows curr p, r.code = p.code := by
  intro r hr
  unfold leftRows at hr
  dsimp only at hr
  split at hr
  · rw [List.mem_singleton.mp hr]
  · obtain ⟨c, _, rfl⟩ := List.mem_map.mp hr
    rfl

theorem length_leftRows {curr : List Holding} {p : Holding}
    (hc : (curr.map fun h => h.code).Nodup) :
    (leftRows curr p).length = 1 := by
  unfold leftRows
  dsimp only
  split
  · rfl
  · rename_i hne
    rw [List.length_map]
    have hle := length_filter_code_le_one hc p.code
    have hpos : 0 < (curr.filter fun c => c.code = p.code).length :=
      List.length_pos.mpr fun heq => hne (by simp [heq])
    omega

theorem leftRows_codes_eq {curr : List Holding} {p : Holding}
    (hc : (curr.map fun h => h.code).Nodup) :
    (leftRows curr p).map (fun r => r.code) = [p.code] := by
  obtain ⟨r, hr⟩ := List.length_eq_one.mp (length_leftRows hc)
  rw [hr]
  have hcode := @leftRows_code curr p r
    (by rw [hr]; exact List.mem_singleton_self r)
  simp [hcode]

theorem flatMap_leftRows_codes {prev curr : List Holding}
    (hc : (curr.map fun h => h.code).Nodup) :
    (prev.flatMap (leftRows curr)).map (fun r => r.code) =
      prev.map fun h => h.code := by
  induction prev with
  | nil => rfl
  | cons p rest ih =>
    rw [List.flatMap_cons, List.map_append, leftRows_codes_eq hc, ih,
      List.map_cons]
    rfl

theorem outerMerge_codes {prev curr : List Holding}
    (hc : (curr.map fun h => h.code).Nodup) :
    (outerMerge prev curr).map (fun r => r.code) =
      (prev.map fun h => h.code) ++
        ((curr.filter fun c => !(prev.any fun p => p.code = c.code)).map
          fun h => h.code) := by
  unfold outerMerge rightRows
  rw [List.map_append, flatMap_leftRows_codes hc, List.map_map]
  rfl

theorem outerMerge_codes_nodup {prev curr : List Holding}
    (hp : (prev.map fun h => h.code).Nodup)
    (hc : (curr.map fun h => h.code).Nodup) :
    ((outerMerge prev curr).map fun r => r.code).Nodup := by
  rw [outerMerge_codes hc, List.nodup_append]
  refine ⟨hp, ?_, ?_⟩
  · exact List.Nodup.sublist ((List.filter_sublist _).map _) hc
  · intro a ha hb
    obtain ⟨c, hcm, rfl⟩ := List.mem_map.mp hb
    rw [List.mem_filter] at hcm
    obtain ⟨hcmem, hpred⟩ := hcm
    obtain ⟨p, hpm, hpc⟩ := List.mem_map.mp ha
    have hfalse : prev.any (fun p => decide (p.code = c.code)) = false := by
      simpa using hpred
    rw [List.any_eq_false] at hfalse
    exact hfalse p hpm (decide_eq_true hpc)

theorem outerMerge_codes_mem {prev curr : List Holding}
    (hc : (curr.map fun h => h.code).Nodup) (x : String) :
    x ∈ (outerMerge prev curr).map (fun r => r.code) ↔
      x ∈ prev.map (fun h => h.code) ∨ x ∈ curr.map (fun h => h.code) := by
  rw [outerMerge_codes hc, List.mem_append]
  constructor
  · rintro (h | h)
    · exact Or.inl h
    · obtain ⟨c, hcm, rfl⟩ := List.mem_map.mp h
      exact Or.inr (List.mem_map_of_mem _ (List.mem_filter.mp hcm).1)
  · rintro (h | h)
    · exact Or.inl h
    · by_cases hx : x ∈ prev.map fun h => h.code
      · exact Or.inl hx
      · right
        obtain ⟨c, hcm, rfl⟩ := List.mem_map.mp h
        refine List.mem_map_of_mem _ (List.mem_filter.mpr ⟨hcm, ?_⟩)
        simp only [Bool.not_eq_true']
        rw [List.any_eq_false]
        intro p hpm hpc
        apply hx
        have hpc' : p.code = c.code := by simpa using hpc
        rw [← hpc']
        exact List.mem_map_of_mem _ hpm

theorem status_row_spec (p c : Int) :
    (p = 0 → 0 < c → status_row p c = DStatus.NEW) ∧
    (0 < p → c = 0 → status_row p c = DStatus.OUT) ∧
    (p < c → ¬(p = 0 ∧ 0 < c) → status_row p c = DStatus.UP) ∧
    (c < p → ¬(0 < p ∧ c = 0) → status_row p c = DStatus.DOWN) ∧
    (0 < p → c = p → status_row p c = DStatus.SAME) := by
  refine ⟨?_, ?_, ?_, ?_, ?_⟩ <;> intro h1 h2 <;> unfold status_row
  · rw [if_pos (by simp only [Bool.and_eq_true, decide_eq_true_eq]; omega)]
  · rw [if_neg (by simp only [Bool.and_eq_true, decide_eq_true_eq]; omega),
      if_pos (by simp only [Bool.and_eq_true, decide_eq_true_eq]; omega)]
  · rw [if_neg (by simp only [Bool.and_eq_true, decide_eq_true_eq]; omega),
      if_neg (by simp only [Bool.and_eq_true, decide_eq_true_eq]; omega),
      if_pos (by omega)]
  · rw [if_neg (by simp only [Bool.and_eq_true, decide_eq_true_eq]; omega),
      if_neg (by simp only [Bool.and_eq_true, decide_eq_true_eq]; omega),
      if_neg (by omega),
      if_pos (by omega)]
  · rw [if_neg (by simp only [Bool.and_eq_true, decide_eq_true_eq]; omega),
      if_neg (by simp only [Bool.and_eq_true, decide_eq_true_eq]; omega),
      if_neg (by omega),
      if_neg (by omega)]

theorem compute_diff_codes_perm (prev curr : List Holding) :
    List.Perm ((compute_diff prev curr).map fun e => e.code)
      ((outerMerge prev curr).map fun r => r.code) := by
  unfold compute_diff
  have h := (stableSort_perm diffLe ((outerMerge prev curr).map mergedToEntry)).map
    fun e => e.code
  rw [List.map_map] at h
  exact h

/-- C3: for snapshots with unique identifiers, `compute_diff` outer-joins on
identifier — every identifier of either input appears exactly once in the
output (the output's identifiers are duplicate-free and range over exactly
the union) — and each entry carries `delta = curr − prev` and the five-way
classification: NEW when prev = 0 < curr, OUT when prev > 0 = curr, UP when
curr > prev (and no earlier rule applies), DOWN when curr < prev (likewise),
SAME when curr = prev > 0. -/
theorem differ_outer_join (prev curr : List Holding)
    (hp : (prev.map fun h => h.code).Nodup)
    (hc : (curr.map fun h => h.code).Nodup) :
    (((compute_diff prev curr).map fun e => e.code).Nodup ∧
      ∀ x : String,
        x ∈ (compute_diff prev curr).map (fun e => e.code) ↔
          x ∈ prev.map (fun h => h.code) ∨ x ∈ curr.map (fun h => h.code)) ∧
    ∀ e ∈ compute_diff prev curr,
      e.delta = e.curr_shares - e.prev_shares ∧
      (e.prev_shares = 0 → 0 < e.curr_shares → e.status = DStatus.NEW) ∧
      (0 < e.prev_shares → e.curr_shares = 0 → e.status = DStatus.OUT) ∧
      (e.prev_shares < e.curr_shares → ¬(e.prev_shares = 0 ∧ 0 < e.curr_shares) →
        e.status = DStatus.UP) ∧
      (e.curr_shares < e.prev_shares → ¬(0 < e.prev_shares ∧ e.curr_shares = 0) →
        e.status = DStatus.DOWN) ∧
      (0 < e.prev_shares → e.curr_shares = e.prev_shares →
        e.status = DStatus.SAME) := by
  refine ⟨⟨?_, ?_⟩, ?_⟩
  · exact (compute_diff_codes_perm prev curr).nodup_iff.mpr
      (outerMerge_codes_nodup hp hc)
  · intro x
    rw [(compute_diff_codes_perm prev curr).mem_iff, outerMerge_codes_mem hc x]
  · intro e he
    have hmem : e ∈ (outerMerge prev curr).map mergedToEntry := by
      unfold compute_diff at he
      exact (stableSort_perm _ _).mem_iff.mp he
    obtain ⟨r, _, rfl⟩ := List.mem_map.mp hmem
    have hs := status_row_spec (r.prev_sh.getD 0) (r.curr_sh.getD 0)
    exact ⟨rfl, hs.1, hs.2.1, hs.2.2.1, hs.2.2.2.1, hs.2.2.2.2⟩

/-- Witness for `differ_outer_join` at the spec's SAME/NEW example pair. -/
theorem differ_outer_join_witness :
    "B" ∈ (compute_diff [⟨"A", "x", 100⟩]
        [⟨"A", "x", 100⟩, ⟨"B", "y", 50⟩]).map (fun e => e.code) ↔
      "B" ∈ ([⟨"A", "x", 100⟩] : List Holding).map (fun h => h.code) ∨
        "B" ∈ ([⟨"A", "x", 100⟩, ⟨"B", "y", 50⟩] : List Holding).map
          (fun h => h.code) :=
  (differ_outer_join [⟨"A", "x", 100⟩] [⟨"A", "x", 100⟩, ⟨"B", "y", 50⟩]
    (by decide) (by decide)).1.2 "B"

/-- Witness instance of `quantity_parsing_amended`. -/
theorem quantity_parsing_amended_witness :
    to_int_safe (some "1,234.9") = .ok 1234 :=
  quantity_parsing_amended.2.1

/-- Witness for `empty_holdings_never_signalled`: its all-dropped clause
applied at a fresh two-column table whose one data row is a total marker. -/
theorem empty_holdings_never_signalled_witness :
    parse_holdings [[some "代號", some "股數"], [some "總計", some "5"]] =
      .ok [] :=
  empty_holdings_never_signalled.2.1
    [[some "代號", some "股數"], [some "總計", some "5"]] 0 "代號" "股數"
    (by decide) (by decide) (by decide) (by decide) (by decide) (by decide)
    (by decide)

end ETF00981A
